import Mathlib

/-!
Shallow embedding of `src/train/train.py` (auto-decoder training script).

Conventions of the embedding:
* Machine floats are modelled as rationals (`ℚ`); the claims under study are
  about exact real semantics (lengths, ordering, signs, frame effects), not
  about rounding.
* The sigmoid activation `1/(1+exp(-x))` and the square root used inside the
  Adam optimizer are transcendental, so they cannot be rational-valued
  functions.  They are therefore passed as explicit function parameters
  (`sig` for sigmoid, `sigd` for its derivative, `s` for square root);
  theorems assume only the facts about them that the real functions satisfy
  (e.g. `sig` has range inside `[0,1]`, `s` is nonnegative on nonnegatives).
* The external dataset (`x_data`, `y_data`, produced by `sdf_generator`,
  which is not part of this repository) and the random initial weights and
  latent codes are universally quantified parameters.
-/

namespace AutoDecoder

/-- A length-`n` vector of scalars, the embedding of a 1-D float array. -/
abbrev Vec (n : ℕ) := Fin n → ℚ

/-- `LATENT_DIM = 2` from the script ("2D latent space for visualization"). -/
abbrev LATENT_DIM : ℕ := 2

/-- Flattened image size; the script writes `28 * 28`. -/
abbrev IMG : ℕ := 28 * 28

/-- Learning rate `0.001` passed to `keras.optimizers.Adam`. -/
def learning_rate : ℚ := 1 / 1000

/-- Keras `Adam` default `beta_1`. -/
def beta_1 : ℚ := 9 / 10

/-- Keras `Adam` default `beta_2`. -/
def beta_2 : ℚ := 999 / 1000

/-- Keras `Adam` default `epsilon = 1e-7`. -/
def epsilon : ℚ := 1 / 10000000

/-- Training parameter `epochs = 10000` from the script. -/
def epochs : ℕ := 10000

/-- Training parameter `display_interval = 1000` from the script. -/
def display_interval : ℕ := 1000

/-- The `relu` activation used by the three hidden `Dense` layers. -/
def relu (x : ℚ) : ℚ := max x 0

/-- Gradient of `relu` as TensorFlow computes it (`0` at the origin). -/
def reluGrad (x : ℚ) : ℚ := if 0 < x then 1 else 0

/-- A fully connected (`Dense`) layer: `W·x + b`. -/
def dense {m n : ℕ} (W : Fin m → Fin n → ℚ) (b : Vec m) (x : Vec n) : Vec m :=
  fun i => (∑ j, W i j * x j) + b i

/-- The weights of the `create_decoder()` model: `Dense(128, relu)`,
`Dense(256, relu)`, `Dense(512, relu)`, `Dense(28*28, sigmoid)`, each with a
kernel and a bias. -/
structure DecoderParams where
  W1 : Fin 128 → Fin LATENT_DIM → ℚ
  b1 : Vec 128
  W2 : Fin 256 → Fin 128 → ℚ
  b2 : Vec 256
  W3 : Fin 512 → Fin 256 → ℚ
  b3 : Vec 512
  W4 : Fin IMG → Fin 512 → ℚ
  b4 : Vec IMG

/-- Pre-activation of the first hidden `Dense(128)` layer. -/
def preact1 (p : DecoderParams) (z : Vec LATENT_DIM) : Vec 128 :=
  dense p.W1 p.b1 z

/-- Output of the first hidden layer (after `relu`). -/
def hidden1 (p : DecoderParams) (z : Vec LATENT_DIM) : Vec 128 :=
  fun i => relu (preact1 p z i)

/-- Pre-activation of the second hidden `Dense(256)` layer. -/
def preact2 (p : DecoderParams) (z : Vec LATENT_DIM) : Vec 256 :=
  dense p.W2 p.b2 (hidden1 p z)

/-- Output of the second hidden layer (after `relu`). -/
def hidden2 (p : DecoderParams) (z : Vec LATENT_DIM) : Vec 256 :=
  fun i => relu (preact2 p z i)

/-- Pre-activation of the third hidden `Dense(512)` layer. -/
def preact3 (p : DecoderParams) (z : Vec LATENT_DIM) : Vec 512 :=
  dense p.W3 p.b3 (hidden2 p z)

/-- Output of the third hidden layer (after `relu`). -/
def hidden3 (p : DecoderParams) (z : Vec LATENT_DIM) : Vec 512 :=
  fun i => relu (preact3 p z i)

/-- Pre-activation of the sigmoid `Dense(28*28)` output layer. -/
def preact4 (p : DecoderParams) (z : Vec LATENT_DIM) : Vec IMG :=
  dense p.W4 p.b4 (hidden3 p z)

/-- Forward pass of the decoder built by `create_decoder()`:
three relu `Dense` layers followed by a sigmoid `Dense(28*28)` output layer.
`sig` is the sigmoid activation (a parameter, see the file header). -/
def decode (sig : ℚ → ℚ) (p : DecoderParams) (z : Vec LATENT_DIM) : Vec IMG :=
  fun k => sig (preact4 p z k)

/-- The decoder output as a list (the flattened image array the script
manipulates). -/
def decodeList (sig : ℚ → ℚ) (p : DecoderParams) (z : Vec LATENT_DIM) : List ℚ :=
  List.ofFn (decode sig p z)

/-- `loss_fn = keras.losses.MeanSquaredError()`: mean of squared differences
over the flattened tensors. -/
def mse {n : ℕ} (target pred : Vec n) : ℚ :=
  (∑ k, (pred k - target k) ^ 2) / n

/-- `np.sum((img - shape_img)**2)`: the sum-of-squared-differences distance
used by the latent-space sampler (flattening does not change the sum). -/
def ssd (a b : Vec IMG) : ℚ := ∑ k, (a k - b k) ^ 2

/-- Comparison `dist < min_dist` where `min_dist` starts as `float('inf')`;
`none` models infinity. -/
def beatsMin (d : ℚ) : Option ℚ → Bool
  | none => true
  | some m => decide (d < m)

/-- The running-minimum loop body of the sampler:
`for i in range(NUM_SHAPES): if dist < min_dist: min_dist, closest = dist, y_data[i]`.
`data` is the list of `(x_data[i], y_data[i])` pairs. -/
def closestAux (img : Vec IMG) : List (Vec IMG × ℤ) → Option ℚ → ℤ → ℤ
  | [], _, c => c
  | p :: rest, md, c =>
    if beatsMin (ssd img p.1) md then closestAux img rest (some (ssd img p.1)) p.2
    else closestAux img rest md c

/-- `closest_shape` from the script: the label of the reference sample whose
image is nearest to `img`, starting from `min_dist = inf`, `closest_shape = 0`. -/
def closest_shape (img : Vec IMG) (data : List (Vec IMG × ℤ)) : ℤ :=
  closestAux img data none 0

/-- Backpropagated sensitivity of the loss to the decoder output:
gradient of `mse target out` with respect to `out`. -/
def dOut (sig : ℚ → ℚ) (p : DecoderParams) (z : Vec LATENT_DIM)
    (target : Vec IMG) : Vec IMG :=
  fun k => 2 * (sig (preact4 p z k) - target k) / IMG

/-- Sensitivity at the output layer's pre-activation (through the sigmoid,
whose derivative is `sigd`). -/
def dA4 (sig sigd : ℚ → ℚ) (p : DecoderParams) (z : Vec LATENT_DIM)
    (target : Vec IMG) : Vec IMG :=
  fun k => dOut sig p z target k * sigd (preact4 p z k)

/-- Sensitivity at the third hidden layer's output. -/
def dH3 (sig sigd : ℚ → ℚ) (p : DecoderParams) (z : Vec LATENT_DIM)
    (target : Vec IMG) : Vec 512 :=
  fun j => ∑ k, p.W4 k j * dA4 sig sigd p z target k

/-- Sensitivity at the third hidden layer's pre-activation (through `relu`). -/
def dA3 (sig sigd : ℚ → ℚ) (p : DecoderParams) (z : Vec LATENT_DIM)
    (target : Vec IMG) : Vec 512 :=
  fun j => dH3 sig sigd p z target j * reluGrad (preact3 p z j)

/-- Sensitivity at the second hidden layer's output. -/
def dH2 (sig sigd : ℚ → ℚ) (p : DecoderParams) (z : Vec LATENT_DIM)
    (target : Vec IMG) : Vec 256 :=
  fun j => ∑ i, p.W3 i j * dA3 sig sigd p z target i

/-- Sensitivity at the second hidden layer's pre-activation (through `relu`). -/
def dA2 (sig sigd : ℚ → ℚ) (p : DecoderParams) (z : Vec LATENT_DIM)
    (target : Vec IMG) : Vec 256 :=
  fun j => dH2 sig sigd p z target j * reluGrad (preact2 p z j)

/-- Sensitivity at the first hidden layer's output. -/
def dH1 (sig sigd : ℚ → ℚ) (p : DecoderParams) (z : Vec LATENT_DIM)
    (target : Vec IMG) : Vec 128 :=
  fun j => ∑ i, p.W2 i j * dA2 sig sigd p z target i

/-- Sensitivity at the first hidden layer's pre-activation (through `relu`). -/
def dA1 (sig sigd : ℚ → ℚ) (p : DecoderParams) (z : Vec LATENT_DIM)
    (target : Vec IMG) : Vec 128 :=
  fun j => dH1 sig sigd p z target j * reluGrad (preact1 p z j)

/-- Gradient of the loss with respect to the gathered latent row `z`. -/
def gradLatent (sig sigd : ℚ → ℚ) (p : DecoderParams) (z : Vec LATENT_DIM)
    (target : Vec IMG) : Vec LATENT_DIM :=
  fun q => ∑ i, p.W1 i q * dA1 sig sigd p z target i

/-- The gradients computed by
`tape.gradient(loss, [latent_codes] + decoder.trainable_variables)` with
`loss = loss_fn(target, decoder(tf.gather(latent_codes, [i])))`:
the component for the gathered latent row (first component) and the eight
decoder weight tensors (second component), obtained by the chain rule exactly
as reverse-mode automatic differentiation evaluates it.  `sigd` is the
derivative of the sigmoid output activation. -/
def tapeGradients (sig sigd : ℚ → ℚ) (p : DecoderParams) (z : Vec LATENT_DIM)
    (target : Vec IMG) : Vec LATENT_DIM × DecoderParams :=
  (gradLatent sig sigd p z target,
   { W1 := fun i q => dA1 sig sigd p z target i * z q
     b1 := dA1 sig sigd p z target
     W2 := fun i j => dA2 sig sigd p z target i * hidden1 p z j
     b2 := dA2 sig sigd p z target
     W3 := fun i j => dA3 sig sigd p z target i * hidden2 p z j
     b3 := dA3 sig sigd p z target
     W4 := fun k j => dA4 sig sigd p z target k * hidden3 p z j
     b4 := dA4 sig sigd p z target })

/-- First-moment recurrence of the Keras `Adam` optimizer for one scalar slot:
`m ← β₁ m + (1-β₁) g` (for rows absent from a sparse gradient, `g = 0`, which
reproduces the dense decay `m ← β₁ m` that the sparse code path also applies
to every row). -/
def adam_m (g m : ℚ) : ℚ := beta_1 * m + (1 - beta_1) * g

/-- Second-moment recurrence of the Keras `Adam` optimizer for one scalar slot:
`v ← β₂ v + (1-β₂) g²`. -/
def adam_v (g v : ℚ) : ℚ := beta_2 * v + (1 - beta_2) * g ^ 2

/-- The Keras `Adam` step size `alpha = lr * sqrt(1 - β₂^t) / (1 - β₁^t)`
where `t` is the iteration count before this step plus one, and `s` stands for
the square root. -/
def adam_alpha (s : ℚ → ℚ) (t : ℕ) : ℚ :=
  learning_rate * s (1 - beta_2 ^ (t + 1)) / (1 - beta_1 ^ (t + 1))

/-- The amount subtracted from one scalar variable slot by one `Adam` step:
`m * alpha / (sqrt v + ε)` (Keras `var.assign_sub(m * alpha / (sqrt(v) + eps))`,
applied densely to every slot of the variable). -/
def adam_delta (s : ℚ → ℚ) (t : ℕ) (m v : ℚ) : ℚ :=
  m * adam_alpha s t / (s v + epsilon)

/-- Pointwise `Adam` first-moment update of a whole tensor. -/
def updM {ι : Type} (g m : ι → ℚ) : ι → ℚ := fun i => adam_m (g i) (m i)

/-- Pointwise `Adam` second-moment update of a whole tensor. -/
def updV {ι : Type} (g v : ι → ℚ) : ι → ℚ := fun i => adam_v (g i) (v i)

/-- Pointwise `Adam` variable update of a whole tensor. -/
def updX {ι : Type} (s : ℚ → ℚ) (t : ℕ) (x m v : ι → ℚ) : ι → ℚ :=
  fun i => x i - adam_delta s t (m i) (v i)

/-- First-moment update applied to all eight decoder tensors. -/
def decM (g m : DecoderParams) : DecoderParams :=
  { W1 := fun i => updM (g.W1 i) (m.W1 i), b1 := updM g.b1 m.b1
    W2 := fun i => updM (g.W2 i) (m.W2 i), b2 := updM g.b2 m.b2
    W3 := fun i => updM (g.W3 i) (m.W3 i), b3 := updM g.b3 m.b3
    W4 := fun i => updM (g.W4 i) (m.W4 i), b4 := updM g.b4 m.b4 }

/-- Second-moment update applied to all eight decoder tensors. -/
def decV (g v : DecoderParams) : DecoderParams :=
  { W1 := fun i => updV (g.W1 i) (v.W1 i), b1 := updV g.b1 v.b1
    W2 := fun i => updV (g.W2 i) (v.W2 i), b2 := updV g.b2 v.b2
    W3 := fun i => updV (g.W3 i) (v.W3 i), b3 := updV g.b3 v.b3
    W4 := fun i => updV (g.W4 i) (v.W4 i), b4 := updV g.b4 v.b4 }

/-- Variable update applied to all eight decoder tensors. -/
def decX (s : ℚ → ℚ) (t : ℕ) (x m v : DecoderParams) : DecoderParams :=
  { W1 := fun i => updX s t (x.W1 i) (m.W1 i) (v.W1 i), b1 := updX s t x.b1 m.b1 v.b1
    W2 := fun i => updX s t (x.W2 i) (m.W2 i) (v.W2 i), b2 := updX s t x.b2 m.b2 v.b2
    W3 := fun i => updX s t (x.W3 i) (m.W3 i) (v.W3 i), b3 := updX s t x.b3 m.b3 v.b3
    W4 := fun i => updX s t (x.W4 i) (m.W4 i) (v.W4 i), b4 := updX s t x.b4 m.b4 v.b4 }

/-- Mutable training state: the `latent_codes` variable, the decoder weights,
the `Adam` slot variables (first and second moments) for both, and the
optimizer's iteration counter. -/
structure TrainState (N : ℕ) where
  latent : Fin N → Vec LATENT_DIM
  m_lat : Fin N → Vec LATENT_DIM
  v_lat : Fin N → Vec LATENT_DIM
  dec : DecoderParams
  m_dec : DecoderParams
  v_dec : DecoderParams
  iters : ℕ

/-- `train_step(latent_idx, target_image)` from the script: gather the latent
row `i`, decode it, compute the mean-squared-error loss, take gradients with
respect to `latent_codes` and all decoder variables, and apply one `Adam`
step (`optimizer.apply_gradients`) to all of them.  The gradient with respect
to `latent_codes` is zero outside row `i` (it is an `IndexedSlices` at `[i]`);
`Adam`'s variable update is nevertheless applied to every row.  Returns the
new state and the (pre-update) loss value. -/
def train_step {N : ℕ} (sig sigd s : ℚ → ℚ) (target : Vec IMG) (i : Fin N)
    (st : TrainState N) : TrainState N × ℚ :=
  let z := st.latent i
  let reconstructed := decode sig st.dec z
  let loss := mse target reconstructed
  let g := tapeGradients sig sigd st.dec z target
  let glat : Fin N → Vec LATENT_DIM := fun r => if r = i then g.1 else fun _ => 0
  let m1 : Fin N → Vec LATENT_DIM := fun r => updM (glat r) (st.m_lat r)
  let v1 : Fin N → Vec LATENT_DIM := fun r => updV (glat r) (st.v_lat r)
  let mD := decM g.2 st.m_dec
  let vD := decV g.2 st.v_dec
  ({ latent := fun r => updX s st.iters (st.latent r) (m1 r) (v1 r)
     m_lat := m1, v_lat := v1
     dec := decX s st.iters st.dec mD vD
     m_dec := mD, v_dec := vD
     iters := st.iters + 1 }, loss)

/-- One epoch of the training loop:
`epoch_loss = 0; for i in range(NUM_SHAPES): loss = train_step([i], x_data_flat[i:i+1]); epoch_loss += loss`.
Returns the state after the epoch and the accumulated (not yet averaged)
epoch loss. -/
def trainEpoch {N : ℕ} (sig sigd s : ℚ → ℚ) (targets : Fin N → Vec IMG)
    (st : TrainState N) : TrainState N × ℚ :=
  (List.finRange N).foldl
    (fun acc i =>
      let r := train_step sig sigd s (targets i) i acc.1
      (r.1, acc.2 + r.2))
    (st, 0)

/-- Python runtime errors that the script can hit in the embedded fragment. -/
inductive PyErr where
  | zeroDivision
  deriving DecidableEq, Repr

/-- Python's true division `x / n` by a (nonnegative integer) denominator:
raises `ZeroDivisionError` when `n == 0`. -/
def pydivN (x : ℚ) (n : ℕ) : Except PyErr ℚ :=
  if n = 0 then .error .zeroDivision else .ok (x / n)

/-- The main training loop, iterated `k` more epochs starting at epoch index
`e` (the script runs `for epoch in range(1, epochs + 1)` so the loop starts at
`e = 1`).  Per epoch it runs `trainEpoch`, divides by `NUM_SHAPES`
(`epoch_loss /= NUM_SHAPES`), appends to `loss_history`, and emits a progress
report `(epoch, epoch_loss)` when
`epoch % display_interval == 0 or epoch == 1`.  Returns the final state, the
loss history in epoch order, and the ordered progress reports. -/
def trainRun {N : ℕ} (sig sigd s : ℚ → ℚ) (targets : Fin N → Vec IMG)
    (interval : ℕ) :
    ℕ → ℕ → TrainState N → Except PyErr (TrainState N × List ℚ × List (ℕ × ℚ))
  | 0, _, st => .ok (st, [], [])
  | k + 1, e, st =>
    let p := trainEpoch sig sigd s targets st
    match pydivN p.2 N with
    | .error err => .error err
    | .ok epochLoss =>
      match trainRun sig sigd s targets interval k (e + 1) p.1 with
      | .error err => .error err
      | .ok (stf, hist, reps) =>
        .ok (stf, epochLoss :: hist,
             (if e % interval = 0 ∨ e = 1 then [(e, epochLoss)] else []) ++ reps)

/-- Decoder weights that are all zero (used for the `Adam` slot variables,
which TensorFlow creates filled with zeros). -/
def zeroDec : DecoderParams :=
  { W1 := fun _ _ => 0, b1 := fun _ => 0
    W2 := fun _ _ => 0, b2 := fun _ => 0
    W3 := fun _ _ => 0, b3 := fun _ => 0
    W4 := fun _ _ => 0, b4 := fun _ => 0 }

/-- The training state right before the loop: the randomly initialized
`latent_codes` and decoder weights are parameters; all optimizer slots are
zero and no iteration has happened. -/
def initialState {N : ℕ} (lat0 : Fin N → Vec LATENT_DIM) (p0 : DecoderParams) :
    TrainState N :=
  { latent := lat0, m_lat := fun _ _ => 0, v_lat := fun _ _ => 0
    dec := p0, m_dec := zeroDec, v_dec := zeroDec, iters := 0 }

/-- The whole `# Main training loop` block of the script, with the script's
`epochs` and `display_interval` constants. -/
def training_loop {N : ℕ} (sig sigd s : ℚ → ℚ) (targets : Fin N → Vec IMG)
    (lat0 : Fin N → Vec LATENT_DIM) (p0 : DecoderParams) :
    Except PyErr (TrainState N × List ℚ × List (ℕ × ℚ)) :=
  trainRun sig sigd s targets display_interval epochs 1 (initialState lat0 p0)

/-- State reached after `k` full epochs from `st`. -/
def stateAfterEpochs {N : ℕ} (sig sigd s : ℚ → ℚ) (targets : Fin N → Vec IMG)
    (st : TrainState N) : ℕ → TrainState N
  | 0 => st
  | k + 1 => (trainEpoch sig sigd s targets (stateAfterEpochs sig sigd s targets st k)).1

/-- Mean loss of the `(k+1)`-st epoch executed from `st` (the scalar appended
to `loss_history` for that epoch). -/
def epochMeanLoss {N : ℕ} (sig sigd s : ℚ → ℚ) (targets : Fin N → Vec IMG)
    (st : TrainState N) (k : ℕ) : ℚ :=
  (trainEpoch sig sigd s targets (stateAfterEpochs sig sigd s targets st k)).2 / N

/-- Pairs each entry of a loss history with its epoch index, starting at `e`. -/
def epochPairs (e : ℕ) : List ℚ → List (ℕ × ℚ)
  | [] => []
  | l :: rest => (e, l) :: epochPairs (e + 1) rest

/-- `np.linspace(a, b, n)`: `n` evenly spaced points from `a` to `b`
inclusive; for `n = 1` just `[a]`, for `n = 0` the empty list. -/
def linspace (a b : ℚ) (n : ℕ) : List ℚ :=
  if n = 1 then [a]
  else (List.range n).map (fun i : ℕ => a + (i : ℚ) * ((b - a) / ((n : ℚ) - 1)))

/-- The latent point `np.array([x, y])` for a grid coordinate pair. -/
def vec2 (x y : ℚ) : Vec LATENT_DIM :=
  fun j => if j = 0 then x else y

/-- The `encoded_points` block of the script: for each `x` in the outer grid
and each `y` in the inner grid, decode the latent point and store
`[float(x), float(y), int(closest_shape)]`. -/
def encoded_points (sig : ℚ → ℚ) (p : DecoderParams) (data : List (Vec IMG × ℤ))
    (gridSize : ℕ) (xmin xmax ymin ymax : ℚ) : List (ℚ × ℚ × ℤ) :=
  (linspace xmin xmax gridSize).flatMap fun x =>
    (linspace ymin ymax gridSize).map fun y =>
      (x, y, closest_shape (decode sig p (vec2 x y)) data)

/-- The sampler grid constants of the script: `grid_size = 20` over
`[-3, 3] × [-3, 3]`. -/
def grid_size : ℕ := 20

/-- A weight tensor as `model.get_weights()` returns it: a rank-1 array
(a layer bias) or a rank-2 array (a layer kernel). -/
inductive Tensor where
  | rank1 (v : List ℚ)
  | rank2 (w : List (List ℚ))
  deriving Repr

/-- Row-major nested-list form of a kernel tensor. -/
def matToList {m n : ℕ} (W : Fin m → Fin n → ℚ) : List (List ℚ) :=
  List.ofFn fun i => List.ofFn fun j => W i j

/-- `decoder.get_weights()`: the eight weight tensors, kernel then bias for
each of the four `Dense` layers, in layer order. -/
def get_weights (p : DecoderParams) : List Tensor :=
  [.rank2 (matToList p.W1), .rank1 (List.ofFn p.b1),
   .rank2 (matToList p.W2), .rank1 (List.ofFn p.b2),
   .rank2 (matToList p.W3), .rank1 (List.ofFn p.b3),
   .rank2 (matToList p.W4), .rank1 (List.ofFn p.b4)]

/-- Rebuild an `m × n` kernel from its nested-list form, checking the shape
(as Keras `set_weights` does; a mismatch raises). -/
def parseMat (m n : ℕ) (l : List (List ℚ)) : Option (Fin m → Fin n → ℚ) :=
  if l.length = m ∧ ∀ r ∈ l, r.length = n then
    some (fun i j => (l.getD i []).getD j 0)
  else none

/-- Rebuild a length-`n` bias vector from its list form, checking the shape. -/
def parseVec (n : ℕ) (l : List ℚ) : Option (Vec n) :=
  if l.length = n then some (fun i => l.getD i 0) else none

/-- `export_model.set_weights(ws)`: replace every weight of the model with
the given tensors, in the same order as `get_weights`; any arity or shape
mismatch is an error (`none`).  The model's previous weights (`old`) are
discarded entirely. -/
def set_weights (old : DecoderParams) (ws : List Tensor) : Option DecoderParams :=
  match ws with
  | [.rank2 w1, .rank1 a1, .rank2 w2, .rank1 a2,
     .rank2 w3, .rank1 a3, .rank2 w4, .rank1 a4] => do
    let W1 ← parseMat 128 LATENT_DIM w1
    let b1 ← parseVec 128 a1
    let W2 ← parseMat 256 128 w2
    let b2 ← parseVec 256 a2
    let W3 ← parseMat 512 256 w3
    let b3 ← parseVec 512 a3
    let W4 ← parseMat IMG 512 w4
    let b4 ← parseVec IMG a4
    let _ := old
    some { W1 := W1, b1 := b1, W2 := W2, b2 := b2
           W3 := W3, b3 := b3, W4 := W4, b4 := b4 }
  | _ => none

/-! ## Theorems -/

/-- C6: for every pair of equal-length vectors the mean-squared-error loss is
a nonnegative rational, and the mean squared error of any vector against
itself is exactly `0`. -/
theorem mse_nonneg_and_self_eq_zero :
    (∀ (n : ℕ) (t p : Vec n), 0 ≤ mse t p) ∧
    (∀ (n : ℕ) (v : Vec n), mse v v = 0) := by
  constructor
  · intro n t p
    have hnum : 0 ≤ ∑ k, (p k - t k) ^ 2 :=
      Finset.sum_nonneg fun k _ => sq_nonneg _
    exact div_nonneg hnum (by positivity)
  · intro n v
    simp [mse]

/-- C5: the decoder output has the same length as a flattened `28 × 28`
target image, and (whenever the output activation maps into `[0,1]`, as the
real sigmoid does) every component of the output lies in `[0,1]`. -/
theorem decode_length_and_range (sig : ℚ → ℚ) (p : DecoderParams)
    (z : Vec LATENT_DIM) (hsig : ∀ x, 0 ≤ sig x ∧ sig x ≤ 1) :
    (decodeList sig p z).length = 28 * 28 ∧
    ∀ q ∈ decodeList sig p z, 0 ≤ q ∧ q ≤ 1 := by
  constructor
  · rw [decodeList, List.length_ofFn]
  · intro q hq
    rw [decodeList, List.mem_ofFn] at hq
    obtain ⟨k, hk⟩ := hq
    rw [← hk]
    exact hsig _

/-- Witness for C5 at a concrete activation, weights and latent input. -/
theorem decode_length_and_range_witness :
    (decodeList (fun _ => 1/2) zeroDec (fun _ => 0)).length = 28 * 28 ∧
    ∀ q ∈ decodeList (fun _ => 1/2) zeroDec (fun _ => 0), 0 ≤ q ∧ q ≤ 1 :=
  decode_length_and_range (fun _ => 1/2) zeroDec (fun _ => 0)
    (fun _ => by norm_num)

/-- C7: the latent-space sampler is deterministic — it is a function of the
decoder's input-output behaviour, the reference data and the grid parameters
alone, so any two runs where the decoders agree pointwise produce identical
output sequences. -/
theorem encoded_points_deterministic (sig1 sig2 : ℚ → ℚ)
    (p1 p2 : DecoderParams) (data : List (Vec IMG × ℤ)) (gridSize : ℕ)
    (xmin xmax ymin ymax : ℚ)
    (h : ∀ z, decode sig1 p1 z = decode sig2 p2 z) :
    encoded_points sig1 p1 data gridSize xmin xmax ymin ymax =
      encoded_points sig2 p2 data gridSize xmin xmax ymin ymax := by
  simp only [encoded_points, h]

lemma stateAfterEpochs_succ_shift {N : ℕ} (sig sigd s : ℚ → ℚ)
    (targets : Fin N → Vec IMG) (st : TrainState N) (k : ℕ) :
    stateAfterEpochs sig sigd s targets st (k + 1) =
      stateAfterEpochs sig sigd s targets (trainEpoch sig sigd s targets st).1 k := by
  induction k with
  | zero => rfl
  | succ k ih =>
    show (trainEpoch sig sigd s targets
        (stateAfterEpochs sig sigd s targets st (k + 1))).1 = _
    rw [ih]
    rfl

/-- C3: with at least one sample, the training loop completes every one of
the `k` requested epochs with no early stop, and the loss history has exactly
one entry per epoch, in epoch order, hence final length `k`. -/
theorem loss_history_one_entry_per_epoch {N : ℕ} (sig sigd s : ℚ → ℚ)
    (targets : Fin N → Vec IMG) (interval : ℕ) (hN : 0 < N) :
    ∀ (k e : ℕ) (st : TrainState N), ∃ stf hist reps,
      trainRun sig sigd s targets interval k e st = .ok (stf, hist, reps) ∧
      hist.length = k ∧
      ∀ idx, idx < k →
        hist[idx]? = some (epochMeanLoss sig sigd s targets st idx) := by
  intro k
  induction k with
  | zero =>
    intro e st
    exact ⟨st, [], [], rfl, rfl, fun idx h => absurd h (by omega)⟩
  | succ k ih =>
    intro e st
    obtain ⟨stf, hist, reps, hrun, hlen, hidx⟩ :=
      ih (e + 1) (trainEpoch sig sigd s targets st).1
    have hdiv : pydivN (trainEpoch sig sigd s targets st).2 N =
        .ok ((trainEpoch sig sigd s targets st).2 / N) := by
      simp [pydivN, hN.ne']
    refine ⟨stf, (trainEpoch sig sigd s targets st).2 / N :: hist,
      (if e % interval = 0 ∨ e = 1 then
        [(e, (trainEpoch sig sigd s targets st).2 / N)] else []) ++ reps,
      ?_, ?_, ?_⟩
    · simp only [trainRun]
      rw [hdiv, hrun]
    · simp [hlen]
    · intro idx h
      match idx with
      | 0 =>
        simp only [List.getElem?_cons_zero, Option.some.injEq]
        rfl
      | idx + 1 =>
        rw [List.getElem?_cons_succ, hidx idx (by omega)]
        have : epochMeanLoss sig sigd s targets st (idx + 1) =
            epochMeanLoss sig sigd s targets
              (trainEpoch sig sigd s targets st).1 idx := by
          unfold epochMeanLoss
          rw [stateAfterEpochs_succ_shift]
        rw [this]

/-- Witness for C3: the theorem applied at one sample, zero-valued decoder
and data, and the script's epoch and interval constants. -/
theorem loss_history_one_entry_per_epoch_witness :
    ∃ stf hist reps,
      trainRun (N := 1) (fun _ => 0) (fun _ => 0) (fun _ => 0) (fun _ _ => 0)
          display_interval epochs 1 (initialState (fun _ _ => 0) zeroDec) =
        .ok (stf, hist, reps) ∧
      hist.length = epochs ∧
      ∀ idx, idx < epochs →
        hist[idx]? = some (epochMeanLoss (N := 1) (fun _ => 0) (fun _ => 0)
          (fun _ => 0) (fun _ _ => 0)
          (initialState (N := 1) (fun _ _ => 0) zeroDec) idx) :=
  loss_history_one_entry_per_epoch (fun _ => 0) (fun _ => 0) (fun _ => 0)
    (fun _ _ => 0) display_interval (by norm_num) epochs 1
    (initialState (fun _ _ => 0) zeroDec)

/-- C9: a progress report `(e, l)` is emitted exactly when `l` is epoch `e`'s
mean loss and `e` is the first epoch or a multiple of the display interval;
no other epoch is reported. -/
theorem progress_reports_iff {N : ℕ} (sig sigd s : ℚ → ℚ)
    (targets : Fin N → Vec IMG) (interval : ℕ) (hN : 0 < N)
    (hint : 0 < interval) :
    ∀ (k e0 : ℕ) (st stf : TrainState N) (hist : List ℚ)
      (reps : List (ℕ × ℚ)),
      trainRun sig sigd s targets interval k e0 st = .ok (stf, hist, reps) →
      ∀ (e : ℕ) (l : ℚ),
        (e, l) ∈ reps ↔
          ((e, l) ∈ epochPairs e0 hist ∧ (e = 1 ∨ interval ∣ e)) := by
  have hmod : ∀ a : ℕ, a % interval = 0 ↔ interval ∣ a := fun a =>
    Iff.symm Nat.dvd_iff_mod_eq_zero
  intro k
  induction k with
  | zero =>
    intro e0 st stf hist reps hrun e l
    simp only [trainRun, Except.ok.injEq, Prod.mk.injEq] at hrun
    obtain ⟨-, h2, h3⟩ := hrun
    subst h2; subst h3
    simp [epochPairs]
  | succ k ih =>
    intro e0 st stf hist reps hrun e l
    have hdiv : pydivN (trainEpoch sig sigd s targets st).2 N =
        .ok ((trainEpoch sig sigd s targets st).2 / N) := by
      simp [pydivN, hN.ne']
    simp only [trainRun] at hrun
    rw [hdiv] at hrun
    rcases hinner : trainRun sig sigd s targets interval k (e0 + 1)
        (trainEpoch sig sigd s targets st).1 with err | tri
    · rw [hinner] at hrun
      simp at hrun
    · obtain ⟨stf2, hist2, reps2⟩ := tri
      rw [hinner] at hrun
      simp only [Except.ok.injEq, Prod.mk.injEq] at hrun
      obtain ⟨-, h2, h3⟩ := hrun
      subst h2; subst h3
      have IH := ih (e0 + 1) (trainEpoch sig sigd s targets st).1
        stf2 hist2 reps2 hinner e l
      simp only [epochPairs, List.mem_cons, Prod.mk.injEq]
      by_cases hc : e0 % interval = 0 ∨ e0 = 1
      · rw [if_pos hc]
        have hcE : e0 = 1 ∨ interval ∣ e0 := by
          rcases hc with hm | h1
          · exact Or.inr (Nat.dvd_of_mod_eq_zero hm)
          · exact Or.inl h1
        simp only [List.singleton_append, List.mem_cons, Prod.mk.injEq]
        constructor
        · rintro (⟨he, hl⟩ | hR)
          · subst he; subst hl
            exact ⟨Or.inl ⟨rfl, rfl⟩, hcE⟩
          · have := IH.mp hR
            exact ⟨Or.inr this.1, this.2⟩
        · rintro ⟨⟨he, hl⟩ | hB, hC⟩
          · exact Or.inl ⟨he, hl⟩
          · exact Or.inr (IH.mpr ⟨hB, hC⟩)
      · rw [if_neg hc]
        simp only [List.nil_append]
        constructor
        · intro hR
          have := IH.mp hR
          exact ⟨Or.inr this.1, this.2⟩
        · rintro ⟨⟨he, hl⟩ | hB, hC⟩
          · exfalso
            rcases hC with h1 | hdvd
            · exact hc (Or.inr (he ▸ h1))
            · exact hc (Or.inl ((hmod e0).mpr (he ▸ hdvd)))
          · exact IH.mpr ⟨hB, hC⟩

/-- Witness for C9 at a concrete zero-epoch run with the script's interval. -/
theorem progress_reports_iff_witness :
    ((1, (0 : ℚ)) ∈ ([] : List (ℕ × ℚ))) ↔
      (((1, (0 : ℚ)) ∈ epochPairs 1 ([] : List ℚ)) ∧
        (1 = 1 ∨ display_interval ∣ 1)) :=
  progress_reports_iff (N := 1) (fun _ => 0) (fun _ => 0) (fun _ => 0)
    (fun _ _ => 0) display_interval (by norm_num) (by norm_num [display_interval])
    0 1 (initialState (fun _ _ => 0) zeroDec)
    (initialState (fun _ _ => 0) zeroDec) [] [] rfl 1 0

/-- C8: with an empty dataset (`NUM_SHAPES = 0`) the script performs no
configuration check; the training loop is entered and crashes during the
first epoch with a `ZeroDivisionError` at `epoch_loss /= NUM_SHAPES`. -/
theorem empty_dataset_zero_division :
    training_loop (N := 0) (fun _ => 0) (fun _ => 0) (fun _ => 0)
      (fun i => i.elim0) (fun i => i.elim0) zeroDec = .error .zeroDivision :=
  rfl

lemma beatsMin_none (d : ℚ) : beatsMin d none = true := rfl

lemma beatsMin_some_iff (d m : ℚ) : beatsMin d (some m) = true ↔ d < m := by
  simp [beatsMin]

lemma closestAux_no_improvement (img : Vec IMG) (l : List (Vec IMG × ℤ)) :
    ∀ (m : ℚ) (c : ℤ), (∀ p ∈ l, m ≤ ssd img p.1) →
      closestAux img l (some m) c = c := by
  induction l with
  | nil => intro m c _; rfl
  | cons p rest ih =>
    intro m c h
    have hp : m ≤ ssd img p.1 := h p (List.mem_cons_self p rest)
    rw [closestAux, if_neg (fun hh => absurd ((beatsMin_some_iff _ _).mp hh)
      (not_lt.mpr hp))]
    exact ih m c fun q hq => h q (List.mem_cons_of_mem p hq)

lemma closestAux_improvement (img : Vec IMG) (l : List (Vec IMG × ℤ)) :
    ∀ (m : ℚ) (c : ℤ), (∃ p ∈ l, ssd img p.1 < m) →
      ∃ i, ∃ hi : i < l.length,
        closestAux img l (some m) c = (l.get ⟨i, hi⟩).2 ∧
        ssd img (l.get ⟨i, hi⟩).1 < m ∧
        (∀ j (hj : j < l.length),
          ssd img (l.get ⟨i, hi⟩).1 ≤ ssd img (l.get ⟨j, hj⟩).1) ∧
        (∀ j (hj : j < i),
          ssd img (l.get ⟨i, hi⟩).1 < ssd img (l.get ⟨j, hj.trans hi⟩).1) := by
  induction l with
  | nil =>
    intro m c h
    exact absurd h (by simp)
  | cons p rest ih =>
    intro m c h
    by_cases hbeat : ssd img p.1 < m
    · rw [closestAux, if_pos ((beatsMin_some_iff _ _).mpr hbeat)]
      by_cases himp : ∃ q ∈ rest, ssd img q.1 < ssd img p.1
      · obtain ⟨i, hi, heq, hlt, hle, hstrict⟩ := ih (ssd img p.1) p.2 himp
        refine ⟨i + 1, Nat.succ_lt_succ hi, heq, hlt.trans hbeat, ?_, ?_⟩
        · intro j hj
          match j, hj with
          | 0, _ => exact le_of_lt hlt
          | j + 1, hj => exact hle j (Nat.lt_of_succ_lt_succ hj)
        · intro j hj
          match j, hj with
          | 0, _ => exact hlt
          | j + 1, hj => exact hstrict j (Nat.lt_of_succ_lt_succ hj)
      · push_neg at himp
        rw [closestAux_no_improvement img rest (ssd img p.1) p.2 himp]
        refine ⟨0, Nat.succ_pos _, rfl, hbeat, ?_, ?_⟩
        · intro j hj
          match j, hj with
          | 0, _ => exact le_refl _
          | j + 1, hj => exact himp _ (rest.get_mem _ _)
        · intro j hj
          exact absurd hj (Nat.not_lt_zero j)
    · rw [closestAux, if_neg (fun hh => hbeat ((beatsMin_some_iff _ _).mp hh))]
      have hrest : ∃ q ∈ rest, ssd img q.1 < m := by
        obtain ⟨q, hq, hqlt⟩ := h
        rcases List.mem_cons.mp hq with hqp | hqR
        · exact absurd (hqp ▸ hqlt) hbeat
        · exact ⟨q, hqR, hqlt⟩
      obtain ⟨i, hi, heq, hlt, hle, hstrict⟩ := ih m c hrest
      have hpm : m ≤ ssd img p.1 := not_lt.mp hbeat
      refine ⟨i + 1, Nat.succ_lt_succ hi, heq, hlt, ?_, ?_⟩
      · intro j hj
        match j, hj with
        | 0, _ => exact le_of_lt (lt_of_lt_of_le hlt hpm)
        | j + 1, hj => exact hle j (Nat.lt_of_succ_lt_succ hj)
      · intro j hj
        match j, hj with
        | 0, _ => exact lt_of_lt_of_le hlt hpm
        | j + 1, hj => exact hstrict j (Nat.lt_of_succ_lt_succ hj)

lemma closestAux_from_head (img : Vec IMG) (p : Vec IMG × ℤ)
    (rest : List (Vec IMG × ℤ)) :
    ∃ i, ∃ hi : i < (p :: rest).length,
      closestAux img rest (some (ssd img p.1)) p.2 = ((p :: rest).get ⟨i, hi⟩).2 ∧
      (∀ j (hj : j < (p :: rest).length),
        ssd img ((p :: rest).get ⟨i, hi⟩).1 ≤ ssd img ((p :: rest).get ⟨j, hj⟩).1) ∧
      (∀ j (hj : j < i),
        ssd img ((p :: rest).get ⟨i, hi⟩).1 <
          ssd img ((p :: rest).get ⟨j, hj.trans hi⟩).1) := by
  by_cases himp : ∃ q ∈ rest, ssd img q.1 < ssd img p.1
  · obtain ⟨i, hi, heq, hlt, hle, hstrict⟩ :=
      closestAux_improvement img rest (ssd img p.1) p.2 himp
    refine ⟨i + 1, Nat.succ_lt_succ hi, heq, ?_, ?_⟩
    · intro j hj
      match j, hj with
      | 0, _ => exact le_of_lt hlt
      | j + 1, hj => exact hle j (Nat.lt_of_succ_lt_succ hj)
    · intro j hj
      match j, hj with
      | 0, _ => exact hlt
      | j + 1, hj => exact hstrict j (Nat.lt_of_succ_lt_succ hj)
  · push_neg at himp
    rw [closestAux_no_improvement img rest (ssd img p.1) p.2 himp]
    refine ⟨0, Nat.succ_pos _, rfl, ?_, ?_⟩
    · intro j hj
      match j, hj with
      | 0, _ => exact le_refl _
      | j + 1, hj => exact himp _ (rest.get_mem _ _)
    · intro j hj
      exact absurd hj (Nat.not_lt_zero j)

/-- C2: `closest_shape` returns the label of the reference sample whose image
has minimal sum-of-squared-differences distance to the decoded image, and a
tie is broken in favour of the lowest sample index (every earlier sample is
strictly farther). -/
theorem closest_shape_picks_first_nearest (img : Vec IMG)
    (data : List (Vec IMG × ℤ)) (hne : data ≠ []) :
    ∃ i, ∃ hi : i < data.length,
      closest_shape img data = (data.get ⟨i, hi⟩).2 ∧
      (∀ j (hj : j < data.length),
        ssd img (data.get ⟨i, hi⟩).1 ≤ ssd img (data.get ⟨j, hj⟩).1) ∧
      (∀ j (hj : j < i),
        ssd img (data.get ⟨i, hi⟩).1 < ssd img (data.get ⟨j, hj.trans hi⟩).1) := by
  match data with
  | [] => exact absurd rfl hne
  | p :: rest =>
    have h0 : closest_shape img (p :: rest) =
        closestAux img rest (some (ssd img p.1)) p.2 := by
      rw [closest_shape, closestAux, if_pos (beatsMin_none _)]
    obtain ⟨i, hi, heq, hle, hstrict⟩ := closestAux_from_head img p rest
    exact ⟨i, hi, h0.trans heq, hle, hstrict⟩

/-- Witness for C2 with one reference sample of label `5`. -/
theorem closest_shape_picks_first_nearest_witness :
    ∃ i, ∃ hi : i < [((fun _ => 0 : Vec IMG), (5 : ℤ))].length,
      closest_shape (fun _ => 0) [((fun _ => 0 : Vec IMG), (5 : ℤ))] =
        ([((fun _ => 0 : Vec IMG), (5 : ℤ))].get ⟨i, hi⟩).2 ∧
      (∀ j (hj : j < [((fun _ => 0 : Vec IMG), (5 : ℤ))].length),
        ssd (fun _ => 0) ([((fun _ => 0 : Vec IMG), (5 : ℤ))].get ⟨i, hi⟩).1 ≤
          ssd (fun _ => 0) ([((fun _ => 0 : Vec IMG), (5 : ℤ))].get ⟨j, hj⟩).1) ∧
      (∀ j (hj : j < i),
        ssd (fun _ => 0) ([((fun _ => 0 : Vec IMG), (5 : ℤ))].get ⟨i, hi⟩).1 <
          ssd (fun _ => 0)
            ([((fun _ => 0 : Vec IMG), (5 : ℤ))].get ⟨j, hj.trans hi⟩).1) :=
  closest_shape_picks_first_nearest (fun _ => 0)
    [((fun _ => 0 : Vec IMG), (5 : ℤ))] (List.cons_ne_nil _ _)

/-- Witness for C7: two decoders with identical parameters and activation. -/
theorem encoded_points_deterministic_witness :
    encoded_points (fun _ => 0) zeroDec [] 20 (-3) 3 (-3) 3 =
      encoded_points (fun _ => 0) zeroDec [] 20 (-3) 3 (-3) 3 :=
  encoded_points_deterministic (fun _ => 0) (fun _ => 0) zeroDec zeroDec
    [] 20 (-3) 3 (-3) 3 (fun _ => rfl)

lemma linspace_length (a b : ℚ) (n : ℕ) : (linspace a b n).length = n := by
  unfold linspace
  split
  · simp_all
  · rw [List.length_map, List.length_range]

lemma sum_map_const_nat {α : Type} (l : List α) (c : ℕ) :
    (l.map (fun _ => c)).sum = l.length * c := by
  induction l with
  | nil => simp
  | cons x xs ih => simp [ih, Nat.succ_mul, Nat.add_comm]

lemma flatMap_getElem? {α β : Type} (f : α → List β) (L : ℕ)
    (hf : ∀ x, (f x).length = L) :
    ∀ (xs : List α) (i j : ℕ) (hi : i < xs.length), j < L →
      (xs.flatMap f)[i * L + j]? = (f (xs.get ⟨i, hi⟩))[j]? := by
  intro xs
  induction xs with
  | nil =>
    intro i j hi _
    exact absurd hi (by simp)
  | cons x xs ih =>
    intro i j hi hj
    match i with
    | 0 =>
      rw [List.flatMap_cons]
      simp only [Nat.zero_mul, Nat.zero_add]
      rw [List.getElem?_append_left (by rw [hf]; exact hj)]
      rfl
    | i + 1 =>
      rw [List.flatMap_cons]
      have harith : (i + 1) * L + j = (f x).length + (i * L + j) := by
        rw [hf]; ring
      rw [harith, List.getElem?_append_right (Nat.le_add_right _ _),
        Nat.add_sub_cancel_left]
      exact ih i j (Nat.lt_of_succ_lt_succ hi) hj

lemma linspace_two_neg_one_one : linspace (-1) 1 2 = [-1, 1] := by
  norm_num [linspace, List.range_succ]

/-- C4: the sampler output is a sequence of exactly `gridSize * gridSize`
`(x, y, label)` triples in row-major order with `x` as the outer and `y` as
the inner loop variable: the entry at flat position `i * gridSize + j` pairs
the `i`-th outer grid value with the `j`-th inner grid value; on a `2 × 2`
grid over `[-1,1] × [-1,1]` the `(x, y)` prefixes appear in the order
`(-1,-1), (-1,1), (1,-1), (1,1)`. -/
theorem encoded_points_row_major (sig : ℚ → ℚ) (p : DecoderParams)
    (data : List (Vec IMG × ℤ)) (gridSize : ℕ) (xmin xmax ymin ymax : ℚ) :
    (encoded_points sig p data gridSize xmin xmax ymin ymax).length =
      gridSize * gridSize ∧
    (∀ i j, i < gridSize → j < gridSize →
      ∃ x y, (linspace xmin xmax gridSize)[i]? = some x ∧
        (linspace ymin ymax gridSize)[j]? = some y ∧
        (encoded_points sig p data gridSize xmin xmax ymin ymax)[i * gridSize + j]? =
          some (x, y, closest_shape (decode sig p (vec2 x y)) data)) ∧
    (∀ (sig2 : ℚ → ℚ) (p2 : DecoderParams) (data2 : List (Vec IMG × ℤ)),
      (encoded_points sig2 p2 data2 2 (-1) 1 (-1) 1).map (fun t => (t.1, t.2.1)) =
        [(-1, -1), (-1, 1), (1, -1), (1, 1)]) := by
  have hf : ∀ x : ℚ, ((linspace ymin ymax gridSize).map fun y =>
      (x, y, closest_shape (decode sig p (vec2 x y)) data)).length = gridSize := by
    intro x
    rw [List.length_map, linspace_length]
  refine ⟨?_, ?_, ?_⟩
  · rw [encoded_points, List.length_flatMap]
    have hcomp : (List.length ∘ fun x : ℚ =>
        (linspace ymin ymax gridSize).map fun y =>
          (x, y, closest_shape (decode sig p (vec2 x y)) data)) =
        fun _ : ℚ => gridSize := funext fun x => hf x
    rw [hcomp, sum_map_const_nat, linspace_length]
  · intro i j hi hj
    have hi2 : i < (linspace xmin xmax gridSize).length := by
      rw [linspace_length]; exact hi
    have hj2 : j < (linspace ymin ymax gridSize).length := by
      rw [linspace_length]; exact hj
    refine ⟨(linspace xmin xmax gridSize).get ⟨i, hi2⟩,
      (linspace ymin ymax gridSize).get ⟨j, hj2⟩,
      List.getElem?_eq_getElem hi2, List.getElem?_eq_getElem hj2, ?_⟩
    rw [encoded_points, flatMap_getElem? _ gridSize hf _ i j hi2 hj,
      List.getElem?_map, List.getElem?_eq_getElem hj2]
    rfl
  · intro sig2 p2 data2
    simp [encoded_points, linspace_two_neg_one_one]

/-- Witness for C4 at a `2 × 2` grid and entry `(i, j) = (1, 0)`. -/
theorem encoded_points_row_major_witness :
    ∃ x y, (linspace (-1) 1 2)[1]? = some x ∧ (linspace (-1) 1 2)[0]? = some y ∧
      (encoded_points (fun _ => 0) zeroDec [] 2 (-1) 1 (-1) 1)[1 * 2 + 0]? =
        some (x, y, closest_shape (decode (fun _ => 0) zeroDec (vec2 x y)) []) :=
  (encoded_points_row_major (fun _ => 0) zeroDec [] 2 (-1) 1 (-1) 1).2.1
    1 0 (by norm_num) (by norm_num)

lemma parseVec_ofFn {n : ℕ} (v : Vec n) : parseVec n (List.ofFn v) = some v := by
  unfold parseVec
  rw [if_pos (List.length_ofFn v)]
  congr 1
  funext i
  have h1 : (List.ofFn v)[(i : ℕ)]? = some (v i) := by
    rw [List.getElem?_ofFn]
    simp [List.ofFnNthVal, i.isLt]
  rw [List.getD_eq_getElem?_getD, h1]
  rfl

lemma parseMat_matToList {m n : ℕ} (W : Fin m → Fin n → ℚ) :
    parseMat m n (matToList W) = some W := by
  unfold parseMat matToList
  rw [if_pos]
  · congr 1
    funext i j
    have h1 : (List.ofFn fun q => List.ofFn fun r => W q r)[(i : ℕ)]? =
        some (List.ofFn fun r => W i r) := by
      rw [List.getElem?_ofFn]
      simp [List.ofFnNthVal, i.isLt]
    have h2 : (List.ofFn fun r => W i r)[(j : ℕ)]? = some (W i j) := by
      rw [List.getElem?_ofFn]
      simp [List.ofFnNthVal, j.isLt]
    simp only [List.getD_eq_getElem?_getD]
    rw [h1]
    simp only [Option.getD_some]
    rw [h2]
    rfl
  · constructor
    · exact List.length_ofFn _
    · intro r hr
      rw [List.mem_ofFn] at hr
      obtain ⟨q, hq⟩ := hr
      rw [← hq]
      exact List.length_ofFn _

/-- C10: `export_model.set_weights(decoder.get_weights())` succeeds (the
fresh model has the same architecture, so every shape check passes) and the
resulting export model computes exactly the same function as the trained
decoder on every latent input. -/
theorem export_model_same_function (trained fresh : DecoderParams)
    (sig : ℚ → ℚ) (z : Vec LATENT_DIM) :
    (set_weights fresh (get_weights trained)).map (fun q => decode sig q z) =
      some (decode sig trained z) := by
  have hset : set_weights fresh (get_weights trained) = some trained := by
    simp only [get_weights, set_weights, parseMat_matToList, parseVec_ofFn,
      Option.bind_eq_bind, Option.some_bind]
  rw [hset]
  rfl

/-- C1 (amended): the loss gradient of a training step on sample `i` is
supported on latent row `i` alone, and a step leaves every other row `j`
unchanged whenever row `j`'s Adam moment slots are zero — in particular on
the first training step.  (Once row `j` carries nonzero momentum from an
earlier step, a step on `i ≠ j` can mutate row `j` as well; see the
counterexample.)  Rows are never permuted, so the row-`i`-to-sample-`i`
pairing itself is preserved. -/
theorem train_step_zero_moment_rows_unchanged {N : ℕ} (sig sigd s : ℚ → ℚ)
    (target : Vec IMG) (i j : Fin N) (st : TrainState N) (hij : j ≠ i)
    (hm : ∀ q, st.m_lat j q = 0) (hv : ∀ q, st.v_lat j q = 0) :
    (train_step sig sigd s target i st).1.latent j = st.latent j := by
  funext q
  show updX s st.iters (st.latent j)
      (updM (if j = i then (tapeGradients sig sigd st.dec (st.latent i) target).1
        else fun _ => 0) (st.m_lat j))
      (updV (if j = i then (tapeGradients sig sigd st.dec (st.latent i) target).1
        else fun _ => 0) (st.v_lat j)) q = st.latent j q
  rw [if_neg hij]
  simp only [updX, updM, updV, adam_m, adam_v, adam_delta, hm, hv]
  norm_num

/-- Witness for C1's amended theorem: the first step on sample `0` of a
two-sample state leaves latent row `1` unchanged. -/
theorem train_step_zero_moment_rows_unchanged_witness :
    (train_step (N := 2) (fun _ => 0) (fun _ => 0) (fun _ => 0) (fun _ => 0) 0
        (initialState (fun _ _ => 0) zeroDec)).1.latent 1 =
      (initialState (N := 2) (fun _ _ => 0) zeroDec).latent 1 :=
  train_step_zero_moment_rows_unchanged (fun _ => 0) (fun _ => 0) (fun _ => 0)
    (fun _ => 0) 0 1 (initialState (fun _ _ => 0) zeroDec) (by decide)
    (fun _ => rfl) (fun _ => rfl)

lemma sum_const_fin (n : ℕ) (c : ℚ) : (∑ _x : Fin n, c) = n * c := by
  rw [Finset.sum_const, Finset.card_univ, Fintype.card_fin, nsmul_eq_mul]

/-- Constant decoder weights for the cross-row-mutation counterexample:
every kernel entry is `1`, the hidden biases are `1, 0, 0`, and the output
bias is `-512 * 98304` so that the output layer's pre-activation is exactly
`0` — the one point where the real sigmoid takes the rational value `1/2`
and its derivative the rational value `1/4`. -/
def cexParams : DecoderParams :=
  { W1 := fun _ _ => 1, b1 := fun _ => 1
    W2 := fun _ _ => 1, b2 := fun _ => 0
    W3 := fun _ _ => 1, b3 := fun _ => 0
    W4 := fun _ _ => 1, b4 := fun _ => -50331648 }

/-- Initial latent row `0` for the counterexample. -/
def cexZ : Vec LATENT_DIM := fun _ => 1

/-- Target image (all pixels `0`) for the counterexample. -/
def cexTarget : Vec IMG := fun _ => 0

lemma preact1_cex : preact1 cexParams cexZ = fun _ => 3 := by
  funext i
  simp only [preact1, dense, cexParams, cexZ, mul_one, sum_const_fin]
  norm_num

lemma hidden1_cex : hidden1 cexParams cexZ = fun _ => 3 := by
  funext i
  simp only [hidden1, preact1_cex, relu]
  exact max_eq_left (by norm_num)

lemma preact2_cex : preact2 cexParams cexZ = fun _ => 384 := by
  funext i
  simp only [preact2, dense, hidden1_cex]
  simp only [cexParams, one_mul, sum_const_fin]
  norm_num

lemma hidden2_cex : hidden2 cexParams cexZ = fun _ => 384 := by
  funext i
  simp only [hidden2, preact2_cex, relu]
  exact max_eq_left (by norm_num)

lemma preact3_cex : preact3 cexParams cexZ = fun _ => 98304 := by
  funext i
  simp only [preact3, dense, hidden2_cex]
  simp only [cexParams, one_mul, sum_const_fin]
  norm_num

lemma hidden3_cex : hidden3 cexParams cexZ = fun _ => 98304 := by
  funext i
  simp only [hidden3, preact3_cex, relu]
  exact max_eq_left (by norm_num)

lemma preact4_cex : preact4 cexParams cexZ = fun _ => 0 := by
  funext i
  simp only [preact4, dense, hidden3_cex]
  simp only [cexParams, one_mul, sum_const_fin]
  norm_num

lemma dOut_cex (sig : ℚ → ℚ) (h12 : sig 0 = 1 / 2) :
    dOut sig cexParams cexZ cexTarget = fun _ => 1 / 784 := by
  funext k
  simp only [dOut, preact4_cex, cexTarget, h12]
  norm_num [IMG]

lemma dA4_cex (sig sigd : ℚ → ℚ) (h12 : sig 0 = 1 / 2) (h14 : sigd 0 = 1 / 4) :
    dA4 sig sigd cexParams cexZ cexTarget = fun _ => 1 / 3136 := by
  funext k
  simp only [dA4, dOut_cex sig h12, preact4_cex, h14]
  norm_num

lemma dH3_cex (sig sigd : ℚ → ℚ) (h12 : sig 0 = 1 / 2) (h14 : sigd 0 = 1 / 4) :
    dH3 sig sigd cexParams cexZ cexTarget = fun _ => 1 / 4 := by
  funext j
  simp only [dH3, dA4_cex sig sigd h12 h14]
  simp only [cexParams, one_mul, sum_const_fin]
  norm_num [IMG]

lemma dA3_cex (sig sigd : ℚ → ℚ) (h12 : sig 0 = 1 / 2) (h14 : sigd 0 = 1 / 4) :
    dA3 sig sigd cexParams cexZ cexTarget = fun _ => 1 / 4 := by
  funext j
  simp only [dA3, dH3_cex sig sigd h12 h14, preact3_cex, reluGrad]
  rw [if_pos (by norm_num : (0 : ℚ) < 98304)]
  norm_num

lemma dH2_cex (sig sigd : ℚ → ℚ) (h12 : sig 0 = 1 / 2) (h14 : sigd 0 = 1 / 4) :
    dH2 sig sigd cexParams cexZ cexTarget = fun _ => 128 := by
  funext j
  simp only [dH2, dA3_cex sig sigd h12 h14]
  simp only [cexParams, one_mul, sum_const_fin]
  norm_num

lemma dA2_cex (sig sigd : ℚ → ℚ) (h12 : sig 0 = 1 / 2) (h14 : sigd 0 = 1 / 4) :
    dA2 sig sigd cexParams cexZ cexTarget = fun _ => 128 := by
  funext j
  simp only [dA2, dH2_cex sig sigd h12 h14, preact2_cex, reluGrad]
  rw [if_pos (by norm_num : (0 : ℚ) < 384)]
  norm_num

lemma dH1_cex (sig sigd : ℚ → ℚ) (h12 : sig 0 = 1 / 2) (h14 : sigd 0 = 1 / 4) :
    dH1 sig sigd cexParams cexZ cexTarget = fun _ => 32768 := by
  funext j
  simp only [dH1, dA2_cex sig sigd h12 h14]
  simp only [cexParams, one_mul, sum_const_fin]
  norm_num

lemma dA1_cex (sig sigd : ℚ → ℚ) (h12 : sig 0 = 1 / 2) (h14 : sigd 0 = 1 / 4) :
    dA1 sig sigd cexParams cexZ cexTarget = fun _ => 32768 := by
  funext j
  simp only [dA1, dH1_cex sig sigd h12 h14, preact1_cex, reluGrad]
  rw [if_pos (by norm_num : (0 : ℚ) < 3)]
  norm_num

lemma gradLatent_cex (sig sigd : ℚ → ℚ) (h12 : sig 0 = 1 / 2)
    (h14 : sigd 0 = 1 / 4) :
    gradLatent sig sigd cexParams cexZ cexTarget = fun _ => 4194304 := by
  funext q
  simp only [gradLatent, dA1_cex sig sigd h12 h14]
  simp only [cexParams, one_mul, sum_const_fin]
  norm_num

/-- Two-sample training state right before training starts in the
counterexample run: latent row `0` is `cexZ`, row `1` is zero. -/
def cexState : TrainState 2 :=
  initialState (fun r => if r = 0 then cexZ else fun _ => 0) cexParams

/-- State after the first training step (`train_step([0], ...)`). -/
def cexStep1 (sig sigd s : ℚ → ℚ) : TrainState 2 :=
  (train_step sig sigd s cexTarget 0 cexState).1

/-- State after the second training step (`train_step([1], ...)`). -/
def cexStep2 (sig sigd s : ℚ → ℚ) : TrainState 2 :=
  (train_step sig sigd s cexTarget 1 (cexStep1 sig sigd s)).1

lemma cexStep1_m_lat (sig sigd s : ℚ → ℚ) (h12 : sig 0 = 1 / 2)
    (h14 : sigd 0 = 1 / 4) :
    (cexStep1 sig sigd s).m_lat 0 = fun _ => 2097152 / 5 := by
  funext q
  show adam_m (gradLatent sig sigd cexParams cexZ cexTarget q) 0 = 2097152 / 5
  simp only [gradLatent_cex sig sigd h12 h14]
  norm_num [adam_m, beta_1]

lemma cexStep1_v_lat (sig sigd s : ℚ → ℚ) (h12 : sig 0 = 1 / 2)
    (h14 : sigd 0 = 1 / 4) :
    (cexStep1 sig sigd s).v_lat 0 = fun _ => 2199023255552 / 125 := by
  funext q
  show adam_v (gradLatent sig sigd cexParams cexZ cexTarget q) 0 = 2199023255552 / 125
  simp only [gradLatent_cex sig sigd h12 h14]
  norm_num [adam_v, beta_2]

lemma cexStep1_iters (sig sigd s : ℚ → ℚ) : (cexStep1 sig sigd s).iters = 1 :=
  rfl

lemma train_step_latent_row_formula {N : ℕ} (sig sigd s : ℚ → ℚ)
    (target : Vec IMG) (i r : Fin N) (st : TrainState N) (hri : r ≠ i) :
    (train_step sig sigd s target i st).1.latent r = fun q =>
      st.latent r q - adam_delta s st.iters
        (adam_m 0 (st.m_lat r q)) (adam_v 0 (st.v_lat r q)) := by
  funext q
  show updX s st.iters (st.latent r)
      (updM (if r = i then (tapeGradients sig sigd st.dec (st.latent i) target).1
        else fun _ => 0) (st.m_lat r))
      (updV (if r = i then (tapeGradients sig sigd st.dec (st.latent i) target).1
        else fun _ => 0) (st.v_lat r)) q = _
  simp only [if_neg hri, updX, updM, updV]

lemma cexStep2_latent0_decreases (sig sigd s : ℚ → ℚ) (h12 : sig 0 = 1 / 2)
    (h14 : sigd 0 = 1 / 4) (hs0 : ∀ x, 0 ≤ x → 0 ≤ s x)
    (hsp : ∀ x, 0 < x → 0 < s x) :
    (cexStep2 sig sigd s).latent 0 0 < (cexStep1 sig sigd s).latent 0 0 := by
  have hrow : (cexStep2 sig sigd s).latent 0 = fun q =>
      (cexStep1 sig sigd s).latent 0 q - adam_delta s (cexStep1 sig sigd s).iters
        (adam_m 0 ((cexStep1 sig sigd s).m_lat 0 q))
        (adam_v 0 ((cexStep1 sig sigd s).v_lat 0 q)) :=
    train_step_latent_row_formula sig sigd s cexTarget 1 0
      (cexStep1 sig sigd s) (by decide)
  rw [hrow]
  simp only [cexStep1_m_lat sig sigd s h12 h14, cexStep1_v_lat sig sigd s h12 h14,
    cexStep1_iters]
  have hdelta : 0 < adam_delta s 1 (adam_m 0 (2097152 / 5))
      (adam_v 0 (2199023255552 / 125)) := by
    have hA : 0 < s (1 - beta_2 ^ (1 + 1)) := hsp _ (by norm_num [beta_2])
    have hB : 0 ≤ s (adam_v 0 (2199023255552 / 125)) :=
      hs0 _ (by norm_num [adam_v, beta_2])
    unfold adam_delta
    apply div_pos
    · apply mul_pos
      · norm_num [adam_m, beta_1]
      · unfold adam_alpha
        apply div_pos
        · exact mul_pos (by norm_num [learning_rate]) hA
        · norm_num [beta_1]
    · exact add_pos_of_nonneg_of_pos hB (by norm_num [epsilon])
  exact sub_lt_self _ hdelta

/-- C1 (counterexample): it is not the case that a training step mutates only
its own latent row.  In the concrete two-sample run `cexState` (constant
weights, so that all involved sigmoid and square-root values are rational and
pinned down by the hypotheses, which the real functions satisfy:
`sigmoid 0 = 1/2`, `sigmoid' 0 = 1/4`, `sqrt` nonnegative and positive on
positives), the second training step — which trains sample `1` — also
mutates latent row `0`, because row `0` still carries Adam momentum from the
first step and the Adam variable update is applied to every row. -/
theorem train_step_mutates_other_row :
    ¬ ∀ (sig sigd s : ℚ → ℚ), sig 0 = 1 / 2 → sigd 0 = 1 / 4 →
        (∀ x, 0 ≤ x → 0 ≤ s x) → (∀ x, 0 < x → 0 < s x) →
        (cexStep2 sig sigd s).latent 0 = (cexStep1 sig sigd s).latent 0 := by
  intro h
  have hs0 : ∀ x : ℚ, 0 ≤ x → 0 ≤ (fun y : ℚ => if 0 < y then (1 : ℚ) else 0) x := by
    intro x _
    dsimp only
    split <;> norm_num
  have hsp : ∀ x : ℚ, 0 < x → 0 < (fun y : ℚ => if 0 < y then (1 : ℚ) else 0) x := by
    intro x hx
    dsimp only
    rw [if_pos hx]
    norm_num
  have heq := h (fun _ => 1 / 2) (fun _ => 1 / 4)
    (fun y : ℚ => if 0 < y then (1 : ℚ) else 0) rfl rfl hs0 hsp
  have hlt := cexStep2_latent0_decreases (fun _ => 1 / 2) (fun _ => 1 / 4)
    (fun y : ℚ => if 0 < y then (1 : ℚ) else 0) rfl rfl hs0 hsp
  rw [congrFun heq 0] at hlt
  exact lt_irrefl _ hlt

end AutoDecoder
